import Mathlib

/-!
Verification of git-fuse: path resolution and the four read-only operations.

A shallow embedding of `src/git-fuse.c`.

Conventions of the embedding

* A C string is a `List Char`: the characters that precede the terminating NUL.
  `NULL` is `none`.
* Resource bounds are idealised: `calloc` succeeds, lengths fit `unsigned int`
  and reference names fit `pszFullRef[1024]`.  Integers that carry a value to
  the caller (`int nRetVal`, `size_t`, `off_t` in `gitfuse_read`) wrap.
* The one place where the source reads a string out of a buffer that holds no
  terminator (`gitfuse_getRef`) is modelled with the characters that follow the
  allocation in memory, up to the first NUL, as an explicit argument `slack`;
  every operation that parses a path carries it.
* libgit2 is outside the repository; the calls the source makes are the fields
  of `Repo` and the typed lookups derived from its object database.
-/

namespace GitFuse

/-- A C string: its characters up to, not including, the terminating NUL. -/
abbrev CStr := List Char

/-! ## Path parser -/

/-- The call `strstr(s, "/")`, as the offset of the first `/` in `s`; `none` is `NULL`. -/
def strstrSlash : CStr → Option Nat
  | [] => none
  | c :: cs => if c = '/' then some 0 else (strstrSlash cs).map (· + 1)

/-- The test of being another character than `/`. -/
def notSlash (c : Char) : Bool := decide (c ≠ '/')

/-- The suffix of a name after its last `/` (the whole name when it has none):
the short form of a reference name in the words of the specification. -/
def lastSegment (name : CStr) : CStr :=
  (name.reverse.takeWhile notSlash).reverse

/-- The loop of `gitfuse_getRef`
`for( nLen = 0; nLen < strlen( pszRetVal ); nLen++ ) if( '/' == pszRetVal[nLen] ) pszRetVal[nLen] = '\0';`
run on the string seen at `pszRetVal`.  `seen` are the characters at indices
below `nLen`, the second argument the characters from index `nLen` on.  Writing
the NUL at index `nLen` makes `strlen` equal to `nLen`, which ends the loop with
the string cut there. -/
def trimLoop (seen : CStr) : CStr → CStr
  | [] => seen
  | c :: cs => if c = '/' then seen else trimLoop (seen ++ [c]) cs

/-- Source `gitfuse_getRef` (git-fuse.c:31-73).

`nLen = pszEnd - pszPath` bytes are allocated and `nLen` bytes are copied from
`pszPath + 1`, so the buffer holds no terminator when the loop starts: the
string at `pszRetVal` is the copied bytes followed by `slack`, the memory after
the allocation.  When `strstr` finds a `/`, it is the last byte copied and the
loop turns it into the terminator; when it finds none, `pszEnd` is put on the
last character of the path and `nLen` is the length of the segment.
(`calloc` of 0 bytes, on the path `/`, is taken to return a pointer.) -/
def gitfuse_getRef (slack : CStr) (pszPath : CStr) : Option CStr :=
  match pszPath with
  | [] => none
  | c :: tl =>
    if c = '/' then
      let nLen : Nat :=
        match strstrSlash tl with
        | some i => i + 1
        | none => pszPath.length - 1
      some (trimLoop [] (tl.take nLen ++ slack))
    else none

/-- Source `gitfuse_getPath` (git-fuse.c:75-104): the characters after the first `/`
that follows the leading one; `strlen + 1` bytes are allocated, so the copy is
terminated. -/
def gitfuse_getPath (pszPath : CStr) : Option CStr :=
  match pszPath with
  | [] => none
  | c :: tl =>
    if c = '/' then
      match strstrSlash tl with
      | some i => some (tl.drop (i + 1))
      | none => none
    else none

/-! ## The object store (libgit2) -/

/-- An object id. -/
abbrev Oid := Nat

/-- The object types `git_tree_entry_type` can report. -/
inductive git_otype where
  | GIT_OBJ_COMMIT
  | GIT_OBJ_TREE
  | GIT_OBJ_BLOB
  | GIT_OBJ_TAG
deriving DecidableEq, Repr

/-- One child record of a tree: `git_tree_entry_name`, `git_tree_entry_type`
and `git_tree_entry_id` read the three fields. -/
structure git_tree_entry where
  name : CStr
  type : git_otype
  oid : Oid
deriving DecidableEq, Repr

/-- A loaded tree: its entries in index order (`git_tree_entry_byindex`). -/
abbrev git_tree := List git_tree_entry

/-- A loaded blob: `git_blob_rawcontent`; `git_blob_rawsize` is its length. -/
abbrev git_blob := List Char

/-- An object of the object database. -/
inductive git_object where
  | commit (tree_id : Oid)
  | tree (entries : git_tree)
  | blob (content : git_blob)
deriving DecidableEq, Repr

/-- A looked-up reference; it bears the name it was looked up by. -/
structure git_reference where
  name : CStr
deriving DecidableEq, Repr

/-- The repository `g_pRepo` as the source sees it through libgit2.
Each field is one library call; `none` (or `false`) is a non-zero return. -/
structure Repo where
  /-- The names `git_reference_list` yields. -/
  git_reference_list : Option (List CStr)
  /-- Whether `git_reference_lookup` succeeds on a name. -/
  reference_loads : CStr → Bool
  /-- The call `git_reference_name_to_id`. -/
  git_reference_name_to_id : CStr → Option Oid
  /-- The object database behind the typed lookups. -/
  odb : Oid → Option git_object
  /-- The call `git_tree_entry_bypath`. -/
  git_tree_entry_bypath : git_tree → CStr → Option git_tree_entry

/-- The call `git_reference_lookup`. -/
def git_reference_lookup (repo : Repo) (name : CStr) : Option git_reference :=
  if repo.reference_loads name then some ⟨name⟩ else none

/-- The call `git_commit_lookup` followed by `git_commit_tree_id`: the id of
the root tree of a commit, when the id loads as a commit. -/
def git_commit_lookup (repo : Repo) (id : Oid) : Option Oid :=
  match repo.odb id with
  | some (git_object.commit t) => some t
  | _ => none

/-- The call `git_tree_lookup`: succeeds only on an id that is a tree. -/
def git_tree_lookup (repo : Repo) (id : Oid) : Option git_tree :=
  match repo.odb id with
  | some (git_object.tree t) => some t
  | _ => none

/-- The call `git_blob_lookup`: succeeds only on an id that is a blob. -/
def git_blob_lookup (repo : Repo) (id : Oid) : Option git_blob :=
  match repo.odb id with
  | some (git_object.blob b) => some b
  | _ => none

/-- The call `git_tree_entry_id`: the address of the entry's id, never `NULL`. -/
def git_tree_entry_id (e : git_tree_entry) : Option Oid := some e.oid

/-- Global `g_pszBranchPath`. -/
def g_pszBranchPath : CStr := "refs/heads/".toList

/-- The call `git_reference_is_branch`: the reference's name starts with
`refs/heads/`. -/
def git_reference_is_branch (r : git_reference) : Bool :=
  g_pszBranchPath.isPrefixOf r.name

/-! ## Reference resolver and tree walker -/

/-- The local `pszFullRef` of `gitfuse_getRefTree` (git-fuse.c:116-122): the
branch namespace, then the reference, with one trailing `/` removed. -/
def pszFullRef (pszReference : CStr) : CStr :=
  let full := g_pszBranchPath ++ pszReference
  if full.getLast? = some '/' then full.dropLast else full

/-- Source `gitfuse_getRefTree` (git-fuse.c:106-147). -/
def gitfuse_getRefTree (repo : Repo) (pszReference : Option CStr) : Option git_tree :=
  match pszReference with
  | none => none
  | some ref =>
    match repo.git_reference_name_to_id (pszFullRef ref) with
    | none => none
    | some nCommitOid =>
      match git_commit_lookup repo nCommitOid with
      | none => none
      | some treeId => git_tree_lookup repo treeId

/-- Source `gitfuse_getRefEntry` (git-fuse.c:149-169). -/
def gitfuse_getRefEntry (repo : Repo) (pszReference pszPath : Option CStr) :
    Option git_tree_entry :=
  match gitfuse_getRefTree repo pszReference with
  | none => none
  | some pRefTree =>
    match pszPath with
    | some p => repo.git_tree_entry_bypath pRefTree p
    | none => none

/-- Source `gitfuse_getRefPath` (git-fuse.c:171-193). -/
def gitfuse_getRefPath (repo : Repo) (pszReference pszPath : Option CStr) :
    Option git_tree :=
  if pszPath = none ∨ pszPath = some ['/'] then
    gitfuse_getRefTree repo pszReference
  else
    match gitfuse_getRefEntry repo pszReference pszPath with
    | some pEntry => git_tree_lookup repo pEntry.oid
    | none => none

/-- Source `gitfuse_isDirectory` (git-fuse.c:197-210). -/
def gitfuse_isDirectory (repo : Repo) (pszReference pszPath : Option CStr) : Bool :=
  (gitfuse_getRefPath repo pszReference pszPath).isSome

/-- Source `gitfuse_getFileSize` (git-fuse.c:212-230). -/
def gitfuse_getFileSize (repo : Repo) (pEntry : git_tree_entry) : Nat :=
  match git_tree_entry_id pEntry with
  | none => 0
  | some pnFileOid =>
    match git_blob_lookup repo pnFileOid with
    | some pFile => pFile.length
    | none => 0

/-- The downward scan of `gitfuse_buildBranchDirName`: index `nIdx` is tested,
then `nIdx - 1`, down to index 0. -/
def scanBack (s : CStr) : Nat → Option CStr
  | 0 => if s.get? 0 = some '/' then some (s.drop 1) else none
  | n + 1 => if s.get? (n + 1) = some '/' then some (s.drop (n + 2)) else scanBack s n

/-- Source `gitfuse_buildBranchDirName` (git-fuse.c:232-252): the scan starts
at `strlen - 1`.  On the empty string the C index wraps; the source only calls
it on branch names, which are not empty. -/
def gitfuse_buildBranchDirName (pszFullBranchName : CStr) : Option CStr :=
  scanBack pszFullBranchName (pszFullBranchName.length - 1)

/-! ## Constants of the C headers -/

/-- Header `errno.h`. -/
def ENOENT : Int := 2

/-- Header `errno.h`. -/
def EACCES : Int := 13

/-- Header `sys/stat.h`: file type bits of a directory. -/
def S_IFDIR : Nat := 0o040000

/-- Header `sys/stat.h`: file type bits of a regular file. -/
def S_IFREG : Nat := 0o100000

/-- Header `fcntl.h`. -/
def O_ACCMODE : Nat := 3

/-- Header `fcntl.h`. -/
def O_RDONLY : Nat := 0

/-- Header `fcntl.h`. -/
def O_WRONLY : Nat := 1

/-- Header `fcntl.h`. -/
def O_RDWR : Nat := 2

/-- The fields of `struct stat` the source writes. -/
structure stat where
  st_mode : Nat
  st_nlink : Nat
  st_size : Nat
deriving DecidableEq, Repr

/-- The buffer after `memset(stbuf, 0, sizeof(struct stat))`. -/
def stat.zero : stat := ⟨0, 0, 0⟩

/-- Conversion of a value to `int` (32 bits, two's complement). -/
def toInt32 (x : Int) : Int := (x + 2147483648) % 4294967296 - 2147483648

/-- Conversion of a value to `size_t` (64 bits). -/
def toSizeT (x : Int) : Nat := (x % 18446744073709551616).toNat

/-! ## Attribute query -/

/-- Source `gitfuse_getattr_dir` (git-fuse.c:255-260). -/
def gitfuse_getattr_dir (stbuf : stat) (nLinks : Nat) : stat :=
  { stbuf with st_mode := S_IFDIR ||| 0o755, st_nlink := nLinks }

/-- Source `gitfuse_getattr` (git-fuse.c:262-336), for non-`NULL` `path` and
`stbuf`: the return value and the buffer it leaves. -/
def gitfuse_getattr (slack : CStr) (repo : Repo) (path : CStr) : Int × stat :=
  let stbuf := stat.zero
  if path = ['/'] ∨ path = ['.'] ∨ path = ['.', '.'] then
    (0, gitfuse_getattr_dir stbuf 3)
  else
    let pszRef := gitfuse_getRef slack path
    let pszPath := gitfuse_getPath path
    if pszRef.isSome ∧ pszPath.isNone then
      (0, gitfuse_getattr_dir stbuf 3)
    else if gitfuse_isDirectory repo pszRef pszPath then
      (0, gitfuse_getattr_dir stbuf 3)
    else
      match gitfuse_getRefEntry repo pszRef pszPath with
      | some pEntry =>
        match pEntry.type with
        | git_otype.GIT_OBJ_BLOB =>
          (0, { stbuf with st_mode := S_IFREG ||| 0o444, st_nlink := 1,
                           st_size := gitfuse_getFileSize repo pEntry })
        | _ => (0, stbuf)
      | none => (-ENOENT, stbuf)

/-! ## Open -/

/-- An assignment to `nRetVal`: the value it held is lost. -/
def assign (_old new : Int) : Int := new

/-- Source `gitfuse_open` (git-fuse.c:338-370); `flags` is `fi->flags`. -/
def gitfuse_open (slack : CStr) (repo : Repo) (path : CStr) (flags : Nat) : Int :=
  let nRetVal : Int := 0
  let pszRef := gitfuse_getRef slack path
  let pszPath := gitfuse_getPath path
  let nRetVal : Int :=
    if (flags &&& O_ACCMODE) ≠ O_RDONLY then assign nRetVal (-EACCES) else nRetVal
  match gitfuse_getRefEntry repo pszRef pszPath with
  | some _ => assign nRetVal 0
  | none => assign nRetVal (-ENOENT)

/-! ## Directory listing -/

/-- The callback `filler(buf, name, NULL, 0)`: one more entry in the listing.
The name is a pointer, so it may be `NULL`. -/
def filler (buf : List (Option CStr)) (name : Option CStr) : List (Option CStr) :=
  buf ++ [name]

/-- The body of the loop over `ref_list` in `gitfuse_readdir`
(git-fuse.c:397-428) for one reference name. -/
def readdirRefStep (repo : Repo) (buf : List (Option CStr)) (pszRefName : CStr) :
    List (Option CStr) :=
  match git_reference_lookup repo pszRefName with
  | some pReference =>
    if git_reference_is_branch pReference then
      filler buf (gitfuse_buildBranchDirName pszRefName)
    else buf
  | none => buf

/-- Source `gitfuse_readdir` (git-fuse.c:372-466): the return value and the
entries handed to `filler`, in order. -/
def gitfuse_readdir (slack : CStr) (repo : Repo) (path : CStr) :
    Int × List (Option CStr) :=
  if path = ['/'] then
    let buf := filler [] (some ['.'])
    let buf := filler buf (some ['.', '.'])
    let buf :=
      match repo.git_reference_list with
      | some ref_list => ref_list.foldl (readdirRefStep repo) buf
      | none => buf
    (0, buf)
  else
    let buf := filler [] (some ['.'])
    let buf := filler buf (some ['.', '.'])
    let pszRef := gitfuse_getRef slack path
    let pszPath := gitfuse_getPath path
    match gitfuse_getRefPath repo pszRef pszPath with
    | some pTree => (0, pTree.foldl (fun b pEntry => filler b (some pEntry.name)) buf)
    | none => (-ENOENT, buf)

/-! ## Read -/

/-- Source `gitfuse_read` (git-fuse.c:468-528): the return value and the bytes
`memcpy` writes to the start of `buf` (none when `memcpy` is not reached).
`size` is a `size_t`, `offset` an `off_t`, `nRetVal` an `int`; the sum
`offset + size` is formed in 64-bit unsigned arithmetic.  The model is for
`offset ≥ 0`, the only offsets the theorems use: for a negative offset the
source reads before the blob and its first comparison depends on the signedness
of `git_blob_rawsize`, neither of which is reproduced here. -/
def gitfuse_read (slack : CStr) (repo : Repo) (path : CStr) (size : Nat) (offset : Int) :
    Int × List Char :=
  let pszRef := gitfuse_getRef slack path
  let pszPath := gitfuse_getPath path
  match gitfuse_getRefEntry repo pszRef pszPath with
  | some pEntry =>
    if pEntry.type = git_otype.GIT_OBJ_BLOB then
      match git_tree_entry_id pEntry with
      | some pnFileOid =>
        match git_blob_lookup repo pnFileOid with
        | some pFile =>
          let rawsize : Int := pFile.length
          let nRetVal : Int :=
            if offset ≥ rawsize then 0
            else if (toSizeT offset + size) % 18446744073709551616 > toSizeT rawsize then
              toInt32 (rawsize - offset)
            else toInt32 size
          if nRetVal ≠ 0 then
            (nRetVal, (pFile.drop (toSizeT offset)).take (toSizeT nRetVal))
          else (nRetVal, [])
        | none => (0, [])
      | none => (0, [])
    else (-EACCES, [])
  | none => (-ENOENT, [])

/-! ## Example repositories -/

/-- Branches `main` and `dev`; their commit (id 1) points at tree 2, whose one
entry `a.txt` is the blob 3 with content `hello`.  A tag and a remote branch are
listed too, and a branch `gone` whose reference no longer loads.  The trees are
flat, so the by-path lookup is the lookup of an entry by its name; no entry has
the empty name, and the lookup of the empty path fails as in libgit2. -/
def exRepo : Repo where
  git_reference_list := some ["refs/heads/main".toList, "refs/tags/v1".toList,
    "refs/remotes/origin/main".toList, "refs/heads/gone".toList, "refs/heads/dev".toList]
  reference_loads := fun n => decide (n ≠ "refs/heads/gone".toList)
  git_reference_name_to_id := fun n =>
    if n = "refs/heads/main".toList ∨ n = "refs/heads/dev".toList then some 1 else none
  odb := fun id =>
    if id = 1 then some (git_object.commit 2)
    else if id = 2 then some (git_object.tree [⟨"a.txt".toList, git_otype.GIT_OBJ_BLOB, 3⟩])
    else if id = 3 then some (git_object.blob "hello".toList)
    else none
  git_tree_entry_bypath := fun t p => t.find? (fun e => e.name = p)

/-- The repository `exRepo` with the blob 3 missing from the object database. -/
def exRepoNoBlob : Repo :=
  { exRepo with odb := fun id => if id = 3 then none else exRepo.odb id }

/-- A repository whose one branch is `refs/heads/feature/x`, a name with a `/`
after the namespace; commit, tree and blob are those of `exRepo`. -/
def exRepoSlash : Repo where
  git_reference_list := some ["refs/heads/feature/x".toList]
  reference_loads := fun _ => true
  git_reference_name_to_id := fun n =>
    if n = "refs/heads/feature/x".toList then some 1 else none
  odb := exRepo.odb
  git_tree_entry_bypath := exRepo.git_tree_entry_bypath

/-- A repository whose one branch has the 24-character name
`abcdefghijklmnopqrstuvwx`; commit, tree and blob are those of `exRepo`. -/
def exRepoLong : Repo where
  git_reference_list := some ["refs/heads/abcdefghijklmnopqrstuvwx".toList]
  reference_loads := fun _ => true
  git_reference_name_to_id := fun n =>
    if n = "refs/heads/abcdefghijklmnopqrstuvwx".toList then some 1 else none
  odb := exRepo.odb
  git_tree_entry_bypath := exRepo.git_tree_entry_bypath

/-! ## Lemmas on the path parser -/

theorem notSlash_slash : notSlash '/' = false := by decide

theorem notSlash_of_ne {c : Char} (h : c ≠ '/') : notSlash c = true := by
  simp [notSlash, h]

theorem strstrSlash_none (s : CStr) (h : '/' ∉ s) : strstrSlash s = none := by
  induction s with
  | nil => rfl
  | cons c cs ih =>
    have hc : c ≠ '/' := fun e => h (by simp [e])
    have hcs : '/' ∉ cs := fun m => h (List.mem_cons_of_mem _ m)
    simp [strstrSlash, hc, ih hcs]

theorem strstrSlash_first (seg rest : CStr) (h : '/' ∉ seg) :
    strstrSlash (seg ++ '/' :: rest) = some seg.length := by
  induction seg with
  | nil => simp [strstrSlash]
  | cons c cs ih =>
    have hc : c ≠ '/' := fun e => h (by simp [e])
    have hcs : '/' ∉ cs := fun m => h (List.mem_cons_of_mem _ m)
    simp [strstrSlash, hc, ih hcs]

theorem trimLoop_eq (seen s : CStr) :
    trimLoop seen s = seen ++ s.takeWhile notSlash := by
  induction s generalizing seen with
  | nil => simp [trimLoop]
  | cons c cs ih =>
    by_cases hc : c = '/'
    · simp [trimLoop, hc, notSlash_slash]
    · simp [trimLoop, hc, ih, notSlash_of_ne hc]

theorem takeWhile_noSlash (seg rest : CStr) (h : '/' ∉ seg) :
    (seg ++ '/' :: rest).takeWhile notSlash = seg := by
  induction seg with
  | nil => simp [notSlash_slash]
  | cons c cs ih =>
    have hc : c ≠ '/' := fun e => h (by simp [e])
    have hcs : '/' ∉ cs := fun m => h (List.mem_cons_of_mem _ m)
    simp [notSlash_of_ne hc, ih hcs]

theorem takeWhile_noSlash_append (seg rest : CStr) (h : '/' ∉ seg) :
    (seg ++ rest).takeWhile notSlash
      = seg ++ rest.takeWhile notSlash := by
  induction seg with
  | nil => simp [notSlash_slash]
  | cons c cs ih =>
    have hc : c ≠ '/' := fun e => h (by simp [e])
    have hcs : '/' ∉ cs := fun m => h (List.mem_cons_of_mem _ m)
    simp [notSlash_of_ne hc, ih hcs]

/-- On `/seg/rest` the reference segment is `seg`, whatever follows the buffer. -/
theorem getRef_seg_rest (slack seg rest : CStr) (h : '/' ∉ seg) :
    gitfuse_getRef slack ('/' :: (seg ++ '/' :: rest)) = some seg := by
  have htake : (seg ++ '/' :: rest).take (seg.length + 1) = seg ++ ['/'] := by
    have : seg ++ '/' :: rest = (seg ++ ['/']) ++ rest := by simp
    rw [this, List.take_left']
    simp
  simp only [gitfuse_getRef, strstrSlash_first seg rest h, if_true, htake, trimLoop_eq]
  simp [takeWhile_noSlash seg slack h]

/-- On `/seg` the buffer has room for `seg` only: the segment read back is
`seg` continued by the bytes after the buffer, up to a NUL or a `/`. -/
theorem getRef_seg (slack seg : CStr) (h : '/' ∉ seg) :
    gitfuse_getRef slack ('/' :: seg)
      = some (seg ++ slack.takeWhile notSlash) := by
  simp only [gitfuse_getRef, strstrSlash_none seg h, if_true, trimLoop_eq]
  simp [takeWhile_noSlash_append seg slack h]

/-- On `/seg` the segment is `seg` when a NUL follows the buffer. -/
theorem getRef_seg_terminated (seg : CStr) (h : '/' ∉ seg) :
    gitfuse_getRef [] ('/' :: seg) = some seg := by
  simp [getRef_seg [] seg h]

theorem getPath_seg_rest (seg rest : CStr) (h : '/' ∉ seg) :
    gitfuse_getPath ('/' :: (seg ++ '/' :: rest)) = some rest := by
  simp [gitfuse_getPath, strstrSlash_first seg rest h]

theorem getPath_seg (seg : CStr) (h : '/' ∉ seg) :
    gitfuse_getPath ('/' :: seg) = none := by
  simp [gitfuse_getPath, strstrSlash_none seg h]

/-! ## Lemmas on reference names -/

theorem pszFullRef_plain (B : CStr) (hB : B ≠ []) (hs : '/' ∉ B) :
    pszFullRef B = g_pszBranchPath ++ B := by
  have hlast : (g_pszBranchPath ++ B).getLast? ≠ some '/' := by
    rw [List.getLast?_append_of_ne_nil _ hB]
    intro h
    exact hs (List.mem_of_getLast?_eq_some h)
  unfold pszFullRef
  simp only []
  rw [if_neg hlast]

theorem scanBack_lastSlash (pre suf : CStr) (hs : '/' ∉ suf) :
    ∀ m, pre.length ≤ m → m < (pre ++ '/' :: suf).length →
      scanBack (pre ++ '/' :: suf) m = some suf := by
  intro m
  induction m with
  | zero =>
    intro h0 _
    have hpre : pre = [] := List.length_eq_zero.mp (Nat.le_zero.mp h0)
    subst hpre
    simp [scanBack]
  | succ m ih =>
    intro hle hlt
    by_cases heq : m + 1 = pre.length
    · have hget : (pre ++ '/' :: suf).get? (m + 1) = some '/' := by
        have h2 : pre ++ '/' :: suf = (pre ++ ['/']) ++ suf := by simp
        rw [heq, h2, List.get?_eq_getElem?, List.getElem?_append_left (by simp)]
        simp
      have hdrop : (pre ++ '/' :: suf).drop (m + 2) = suf := by
        have : m + 2 = (pre ++ ['/']).length := by simp; omega
        have h2 : pre ++ '/' :: suf = (pre ++ ['/']) ++ suf := by simp
        rw [h2, this, List.drop_left]
      simp only [scanBack, hget, if_true, hdrop]
    · have hgt : pre.length < m + 1 := lt_of_le_of_ne hle (Ne.symm heq)
      have hlen : (pre ++ '/' :: suf).length = pre.length + suf.length + 1 := by simp; omega
      have hget : (pre ++ '/' :: suf).get? (m + 1) ≠ some '/' := by
        intro h
        have hmem : (pre ++ '/' :: suf).get? (m + 1) = suf.get? (m - pre.length) := by
          have h2 : pre ++ '/' :: suf = (pre ++ ['/']) ++ suf := by simp
          rw [h2, List.get?_eq_getElem?, List.getElem?_append_right (by simp; omega)]
          simp
        rw [hmem] at h
        exact hs (List.get?_mem h)
      simp only [scanBack, hget, if_false]
      exact ih (by omega) (by omega)

/-- The scan returns the suffix after the last `/`. -/
theorem buildBranchDirName_lastSlash (pre suf : CStr) (hs : '/' ∉ suf) :
    gitfuse_buildBranchDirName (pre ++ '/' :: suf) = some suf := by
  unfold gitfuse_buildBranchDirName
  apply scanBack_lastSlash pre suf hs
  · simp
  · simp

theorem lastSegment_lastSlash (pre suf : CStr) (hs : '/' ∉ suf) :
    lastSegment (pre ++ '/' :: suf) = suf := by
  have hr : '/' ∉ suf.reverse := by simpa using hs
  have : (pre ++ '/' :: suf).reverse = suf.reverse ++ '/' :: pre.reverse := by simp
  rw [lastSegment, this, takeWhile_noSlash _ _ hr, List.reverse_reverse]

theorem exists_lastSlash (s : CStr) (h : '/' ∈ s) :
    ∃ pre suf, s = pre ++ '/' :: suf ∧ '/' ∉ suf := by
  induction s with
  | nil => simp at h
  | cons c cs ih =>
    by_cases hcs : '/' ∈ cs
    · obtain ⟨pre, suf, he, hs⟩ := ih hcs
      exact ⟨c :: pre, suf, by simp [he], hs⟩
    · have hc : c = '/' := by
        rcases List.mem_cons.mp h with h1 | h1
        · exact h1.symm
        · exact absurd h1 hcs
      exact ⟨[], cs, by simp [hc], hcs⟩

/-- On a name that holds a `/` the scan yields its last segment. -/
theorem buildBranchDirName_eq (s : CStr) (h : '/' ∈ s) :
    gitfuse_buildBranchDirName s = some (lastSegment s) := by
  obtain ⟨pre, suf, he, hs⟩ := exists_lastSlash s h
  rw [he, buildBranchDirName_lastSlash pre suf hs, lastSegment_lastSlash pre suf hs]

theorem slash_mem_of_branch (n : CStr) (h : g_pszBranchPath.isPrefixOf n = true) :
    '/' ∈ n := by
  have hp : g_pszBranchPath <+: n := List.isPrefixOf_iff_prefix.mp h
  obtain ⟨t, ht⟩ := hp
  rw [← ht]
  exact List.mem_append_left _ (by decide)

/-! ## Lemmas on resolution -/

theorem getRefTree_branch (repo : Repo) (B : CStr) (cid tid : Oid) (T : git_tree)
    (hB : B ≠ []) (hs : '/' ∉ B)
    (h1 : repo.git_reference_name_to_id (g_pszBranchPath ++ B) = some cid)
    (h2 : repo.odb cid = some (git_object.commit tid))
    (h3 : repo.odb tid = some (git_object.tree T)) :
    gitfuse_getRefTree repo (some B) = some T := by
  simp [gitfuse_getRefTree, pszFullRef_plain B hB hs, h1, git_commit_lookup, h2,
    git_tree_lookup, h3]

theorem getRefTree_unknown (repo : Repo) (B : CStr) (hB : B ≠ []) (hs : '/' ∉ B)
    (h1 : repo.git_reference_name_to_id (g_pszBranchPath ++ B) = none) :
    gitfuse_getRefTree repo (some B) = none := by
  simp [gitfuse_getRefTree, pszFullRef_plain B hB hs, h1]

theorem tree_lookup_of_blob (repo : Repo) (id : Oid) (b : git_blob)
    (h : repo.odb id = some (git_object.blob b)) : git_tree_lookup repo id = none := by
  simp [git_tree_lookup, h]

theorem foldl_filler (t : git_tree) (buf : List (Option CStr)) :
    t.foldl (fun b pEntry => filler b (some pEntry.name)) buf
      = buf ++ t.map (fun e => some e.name) := by
  induction t generalizing buf with
  | nil => simp
  | cons e es ih =>
    rw [List.foldl, ih]
    simp [filler]

theorem foldl_readdirRefStep (repo : Repo) (l : List CStr) (buf : List (Option CStr)) :
    l.foldl (readdirRefStep repo) buf
      = buf ++ (l.filter (fun n => repo.reference_loads n && g_pszBranchPath.isPrefixOf n)).map
          (fun n => some (lastSegment n)) := by
  induction l generalizing buf with
  | nil => simp
  | cons n ns ih =>
    rw [List.foldl, ih]
    by_cases hl : repo.reference_loads n = true
    · by_cases hb : g_pszBranchPath.isPrefixOf n = true
      · have hname := buildBranchDirName_eq n (slash_mem_of_branch n hb)
        simp [readdirRefStep, git_reference_lookup, git_reference_is_branch, hl, hb, hname,
          filler]
      · simp [readdirRefStep, git_reference_lookup, git_reference_is_branch, hl, hb]
    · simp [readdirRefStep, git_reference_lookup, hl]

theorem readdir_of_tree (slack : CStr) (repo : Repo) (path : CStr) (t : git_tree)
    (hpath : path ≠ ['/'])
    (h : gitfuse_getRefPath repo (gitfuse_getRef slack path) (gitfuse_getPath path) = some t) :
    gitfuse_readdir slack repo path
      = (0, some ['.'] :: some ['.', '.'] :: t.map (fun e => some e.name)) := by
  unfold gitfuse_readdir
  rw [if_neg hpath]
  simp only [h, foldl_filler]
  simp [filler]

theorem readdir_of_no_tree (slack : CStr) (repo : Repo) (path : CStr)
    (hpath : path ≠ ['/'])
    (h : gitfuse_getRefPath repo (gitfuse_getRef slack path) (gitfuse_getPath path) = none) :
    gitfuse_readdir slack repo path = (-ENOENT, [some ['.'], some ['.', '.']]) := by
  unfold gitfuse_readdir
  rw [if_neg hpath]
  simp only [h]
  simp [filler]

/-- The listing of `/B/` fails whenever the by-path lookup of the empty path
does, although the branch `B` resolves. -/
theorem readdir_trailing_slash (slack : CStr) (repo : Repo) (B : CStr) (cid tid : Oid)
    (T : git_tree) (hB : B ≠ []) (hs : '/' ∉ B)
    (h1 : repo.git_reference_name_to_id (g_pszBranchPath ++ B) = some cid)
    (h2 : repo.odb cid = some (git_object.commit tid))
    (h3 : repo.odb tid = some (git_object.tree T))
    (hby : repo.git_tree_entry_bypath T [] = none) :
    gitfuse_readdir slack repo ('/' :: (B ++ ['/'])) = (-ENOENT, [some ['.'], some ['.', '.']]) := by
  apply readdir_of_no_tree slack repo _ (by simp)
  have htree := getRefTree_branch repo B cid tid T hB hs h1 h2 h3
  simp [getRef_seg_rest slack B [] hs, getPath_seg_rest B [] hs, gitfuse_getRefPath,
    gitfuse_getRefEntry, htree, hby]

/-- The listing of `/B` gives the entries of the tree of `B` when a NUL follows
the buffer of `gitfuse_getRef`. -/
theorem readdir_branch (repo : Repo) (B : CStr) (cid tid : Oid)
    (T : git_tree) (hB : B ≠ []) (hs : '/' ∉ B)
    (h1 : repo.git_reference_name_to_id (g_pszBranchPath ++ B) = some cid)
    (h2 : repo.odb cid = some (git_object.commit tid))
    (h3 : repo.odb tid = some (git_object.tree T)) :
    gitfuse_readdir [] repo ('/' :: B)
      = (0, some ['.'] :: some ['.', '.'] :: T.map (fun e => some e.name)) := by
  apply readdir_of_tree [] repo _ T (by simp [hB])
  have htree := getRefTree_branch repo B cid tid T hB hs h1 h2 h3
  simp [getRef_seg_terminated B hs, getPath_seg B hs, gitfuse_getRefPath, htree]

/-- The listing of `/B/P` gives the entries of the tree that `P` designates
inside the tree of `B`, whatever follows the buffer of `gitfuse_getRef`. -/
theorem readdir_subdir (slack : CStr) (repo : Repo) (B P : CStr) (cid tid : Oid)
    (T D : git_tree) (e : git_tree_entry) (hB : B ≠ []) (hs : '/' ∉ B) (hP : P ≠ ['/'])
    (h1 : repo.git_reference_name_to_id (g_pszBranchPath ++ B) = some cid)
    (h2 : repo.odb cid = some (git_object.commit tid))
    (h3 : repo.odb tid = some (git_object.tree T))
    (h4 : repo.git_tree_entry_bypath T P = some e)
    (h5 : repo.odb e.oid = some (git_object.tree D)) :
    gitfuse_readdir slack repo ('/' :: (B ++ '/' :: P))
      = (0, some ['.'] :: some ['.', '.'] :: D.map (fun e => some e.name)) := by
  apply readdir_of_tree slack repo _ D (by simp)
  have htree := getRefTree_branch repo B cid tid T hB hs h1 h2 h3
  simp [getRef_seg_rest slack B P hs, getPath_seg_rest B P hs, gitfuse_getRefPath, hP,
    gitfuse_getRefEntry, htree, h4, git_tree_lookup, h5]

/-- The listing of `/B/P` fails when `P` names no entry of the tree of `B`. -/
theorem readdir_subdir_missing (slack : CStr) (repo : Repo) (B P : CStr) (cid tid : Oid)
    (T : git_tree) (hB : B ≠ []) (hs : '/' ∉ B) (hP : P ≠ ['/'])
    (h1 : repo.git_reference_name_to_id (g_pszBranchPath ++ B) = some cid)
    (h2 : repo.odb cid = some (git_object.commit tid))
    (h3 : repo.odb tid = some (git_object.tree T))
    (h4 : repo.git_tree_entry_bypath T P = none) :
    gitfuse_readdir slack repo ('/' :: (B ++ '/' :: P))
      = (-ENOENT, [some ['.'], some ['.', '.']]) := by
  apply readdir_of_no_tree slack repo _ (by simp)
  have htree := getRefTree_branch repo B cid tid T hB hs h1 h2 h3
  simp [getRef_seg_rest slack B P hs, getPath_seg_rest B P hs, gitfuse_getRefPath, hP,
    gitfuse_getRefEntry, htree, h4]

/-- The listing of `/B/P` fails when `P` designates a blob. -/
theorem readdir_subdir_blob (slack : CStr) (repo : Repo) (B P : CStr) (cid tid : Oid)
    (T : git_tree) (e : git_tree_entry) (b : git_blob)
    (hB : B ≠ []) (hs : '/' ∉ B) (hP : P ≠ ['/'])
    (h1 : repo.git_reference_name_to_id (g_pszBranchPath ++ B) = some cid)
    (h2 : repo.odb cid = some (git_object.commit tid))
    (h3 : repo.odb tid = some (git_object.tree T))
    (h4 : repo.git_tree_entry_bypath T P = some e)
    (h5 : repo.odb e.oid = some (git_object.blob b)) :
    gitfuse_readdir slack repo ('/' :: (B ++ '/' :: P))
      = (-ENOENT, [some ['.'], some ['.', '.']]) := by
  apply readdir_of_no_tree slack repo _ (by simp)
  have htree := getRefTree_branch repo B cid tid T hB hs h1 h2 h3
  simp [getRef_seg_rest slack B P hs, getPath_seg_rest B P hs, gitfuse_getRefPath, hP,
    gitfuse_getRefEntry, htree, h4, tree_lookup_of_blob repo e.oid b h5]

/-- The listing below an unknown branch fails: on `/B/P` whatever follows the
buffer of `gitfuse_getRef`, on `/B` when a NUL follows it. -/
theorem readdir_unknown_branch (slack : CStr) (repo : Repo) (B P : CStr)
    (hB : B ≠ []) (hs : '/' ∉ B)
    (h1 : repo.git_reference_name_to_id (g_pszBranchPath ++ B) = none) :
    gitfuse_readdir slack repo ('/' :: (B ++ '/' :: P))
        = (-ENOENT, [some ['.'], some ['.', '.']]) ∧
    gitfuse_readdir [] repo ('/' :: B) = (-ENOENT, [some ['.'], some ['.', '.']]) := by
  have htree := getRefTree_unknown repo B hB hs h1
  constructor
  · apply readdir_of_no_tree slack repo _ (by simp)
    rw [getRef_seg_rest slack B P hs, getPath_seg_rest B P hs]
    unfold gitfuse_getRefPath
    split <;> simp [gitfuse_getRefEntry, htree]
  · apply readdir_of_no_tree [] repo _ (by simp [hB])
    simp [getRef_seg_terminated B hs, getPath_seg B hs, gitfuse_getRefPath, htree]

/-- Whatever the flags, `gitfuse_open` returns 0 or `-ENOENT`: the value
`-EACCES` is overwritten before the return. -/
theorem open_ignores_flags (slack : CStr) (repo : Repo) (path : CStr) (flags : Nat) :
    gitfuse_open slack repo path flags = gitfuse_open slack repo path O_RDONLY := by
  unfold gitfuse_open
  cases gitfuse_getRefEntry repo (gitfuse_getRef slack path) (gitfuse_getPath path) <;>
    simp [assign]

/-- A blob-typed entry whose blob does not load reads as 0 bytes. -/
theorem read_blob_missing (slack : CStr) (repo : Repo) (path : CStr) (e : git_tree_entry)
    (size : Nat) (offset : Int)
    (hres : gitfuse_getRefEntry repo (gitfuse_getRef slack path) (gitfuse_getPath path) = some e)
    (hty : e.type = git_otype.GIT_OBJ_BLOB)
    (hb : git_blob_lookup repo e.oid = none) :
    gitfuse_read slack repo path size offset = (0, []) := by
  simp [gitfuse_read, hres, hty, git_tree_entry_id, hb]

/-! ## Byte-range read (C1) -/

/-- Claim C1.  When the path resolves to a blob-typed entry whose blob has
content `b`, and offset `o`, count `c` and the blob size are within machine
range (`o` and the size below `2^63`, `c` below `2^31`, the range of the `int`
return value), `gitfuse_read` returns `k` with `k = 0` when `o` is at or past the
end, `k = size - o` when the request overruns the end, and `k = c` otherwise; the
bytes copied are `k` in number and byte `i` of them is byte `o + i` of `b`.  On
content `hello`: (0,10) gives `hello`, (5,1) gives 0 bytes, (2,10) gives `llo`. -/
theorem read_byte_range (slack : CStr) (repo : Repo) (path : CStr) (e : git_tree_entry)
    (b : git_blob) (o c : Nat)
    (hres : gitfuse_getRefEntry repo (gitfuse_getRef slack path) (gitfuse_getPath path) = some e)
    (hty : e.type = git_otype.GIT_OBJ_BLOB)
    (hb : git_blob_lookup repo e.oid = some b)
    (ho : o < 9223372036854775808) (hc : c < 2147483648)
    (hn : b.length < 9223372036854775808) :
    (∃ k : Nat,
      (gitfuse_read slack repo path c o).1 = (k : Int) ∧
      (b.length ≤ o → k = 0) ∧
      (o < b.length → b.length < o + c → k = b.length - o) ∧
      (o < b.length → o + c ≤ b.length → k = c) ∧
      (gitfuse_read slack repo path c o).2.length = k ∧
      ∀ i, i < k → (gitfuse_read slack repo path c o).2.get? i = b.get? (o + i)) ∧
    gitfuse_read [] exRepo "/main/a.txt".toList 10 0 = (5, "hello".toList) ∧
    gitfuse_read [] exRepo "/main/a.txt".toList 1 5 = (0, []) ∧
    gitfuse_read [] exRepo "/main/a.txt".toList 10 2 = (3, "llo".toList) := by
  refine ⟨?_, by decide, by decide, by decide⟩
  have hread : gitfuse_read slack repo path c o =
      (let nRetVal : Int :=
          if (o : Int) ≥ (b.length : Int) then 0
          else if (toSizeT o + c) % 18446744073709551616 > toSizeT (b.length : Int) then
            toInt32 ((b.length : Int) - o)
          else toInt32 c
        if nRetVal ≠ 0 then
          (nRetVal, (b.drop (toSizeT o)).take (toSizeT nRetVal))
        else (nRetVal, [])) := by
    simp [gitfuse_read, hres, hty, git_tree_entry_id, hb]
  have hso : toSizeT (o : Int) = o := by unfold toSizeT; omega
  have hsn : toSizeT (b.length : Int) = b.length := by unfold toSizeT; omega
  rw [hread, hso, hsn]
  by_cases h1 : b.length ≤ o
  · refine ⟨0, ?_⟩
    have : (o : Int) ≥ (b.length : Int) := by omega
    simp [this]
    omega
  · have h1i : ¬ ((o : Int) ≥ (b.length : Int)) := by omega
    by_cases h2 : b.length < o + c
    · have hgt : (o + c) % 18446744073709551616 > b.length := by omega
      have hk : toInt32 ((b.length : Int) - o) = ((b.length - o : Nat) : Int) := by
        unfold toInt32; omega
      have hks : toSizeT ((b.length - o : Nat) : Int) = b.length - o := by
        unfold toSizeT; omega
      refine ⟨b.length - o, ?_⟩
      have hne : ((b.length - o : Nat) : Int) ≠ 0 := by omega
      simp only [h1i, if_false, hgt, if_true, hk, hks, hne, ne_eq, not_false_eq_true]
      refine ⟨trivial, by omega, fun _ _ => trivial, by omega, ?_, ?_⟩
      · simp
      · intro i hi
        simp [List.get?_eq_getElem?, List.getElem?_take, hi]
    · have hle : ¬ ((o + c) % 18446744073709551616 > b.length) := by omega
      have hk : toInt32 (c : Int) = (c : Int) := by unfold toInt32; omega
      have hks : toSizeT (c : Int) = c := by unfold toSizeT; omega
      refine ⟨c, ?_⟩
      simp only [h1i, if_false, hle, hk, hks]
      by_cases hc0 : c = 0
      · subst hc0
        simp
        omega
      · have hne : (c : Int) ≠ 0 := by omega
        simp only [hne, ne_eq, not_false_eq_true, if_true]
        refine ⟨trivial, by omega, by omega, fun _ _ => trivial, ?_, ?_⟩
        · simp; omega
        · intro i hi
          simp [List.get?_eq_getElem?, List.getElem?_take, hi]

/-- Witness of C1 on the example repository: offset 2, count 10. -/
theorem read_byte_range_witness :
    ∃ k : Nat,
      (gitfuse_read [] exRepo "/main/a.txt".toList 10 ((2 : Nat) : Int)).1 = (k : Int) ∧
      ("hello".toList.length ≤ 2 → k = 0) ∧
      (2 < "hello".toList.length → "hello".toList.length < 2 + 10 →
        k = "hello".toList.length - 2) ∧
      (2 < "hello".toList.length → 2 + 10 ≤ "hello".toList.length → k = 10) ∧
      (gitfuse_read [] exRepo "/main/a.txt".toList 10 ((2 : Nat) : Int)).2.length = k ∧
      ∀ i, i < k →
        (gitfuse_read [] exRepo "/main/a.txt".toList 10 ((2 : Nat) : Int)).2.get? i
          = "hello".toList.get? (2 + i) :=
  (read_byte_range [] exRepo "/main/a.txt".toList
    ⟨"a.txt".toList, git_otype.GIT_OBJ_BLOB, 3⟩ "hello".toList 2 10
    (by decide) (by decide) (by decide) (by decide) (by decide) (by decide)).1

/-! ## Open with a write-capable mode (C2) -/

/-- Claim C2, evaluated on the code: on the existing file `/main/a.txt` an open
for writing (`O_WRONLY`) and an open for reading and writing (`O_RDWR`) both
return 0, and on a path that does not resolve the open for writing returns
`-ENOENT`; neither returns `-EACCES`. -/
theorem open_write_mode_not_denied :
    gitfuse_open [] exRepo "/main/a.txt".toList O_WRONLY = 0 ∧
    gitfuse_open [] exRepo "/main/a.txt".toList O_RDWR = 0 ∧
    gitfuse_open [] exRepo "/main/b.txt".toList O_WRONLY = -ENOENT ∧
    (O_WRONLY &&& O_ACCMODE) ≠ O_RDONLY ∧ (O_RDWR &&& O_ACCMODE) ≠ O_RDONLY := by
  decide

/-! ## Attribute query on a reference directory (C3) -/

/-- Claim C4, evaluated on the code: with branch `main` present, the listing of
`/main` returns 0 with the entry `a.txt`, the listing of `/main/` returns
`-ENOENT` with no entry beyond `.` and `..`.  The remainder of `/main/` is the
empty string, which `gitfuse_getRefPath` hands to the by-path lookup. -/
theorem readdir_trailing_slash_differs :
    gitfuse_readdir [] exRepo "/main".toList
      = (0, [some ".".toList, some "..".toList, some "a.txt".toList]) ∧
    gitfuse_readdir [] exRepo "/main/".toList
      = (-ENOENT, [some ".".toList, some "..".toList]) ∧
    gitfuse_getPath "/main/".toList = some [] ∧
    gitfuse_getPath "/main".toList = none := by
  decide

/-! ## Path parsing (C5) -/

/-- Claim C5, evaluated on the code: on `/seg` with a 24-character segment the
buffer of `gitfuse_getRef` is 24 bytes, all of them copied from the path, and
the segment read back runs on into the byte after the buffer (here `!`); the
remainder is `NULL` as the claim says. -/
theorem getRef_segment_unterminated :
    gitfuse_getRef "!".toList "/abcdefghijklmnopqrstuvwx".toList
      = some "abcdefghijklmnopqrstuvwx!".toList ∧
    gitfuse_getRef "!".toList "/abcdefghijklmnopqrstuvwx".toList
      ≠ some "abcdefghijklmnopqrstuvwx".toList ∧
    gitfuse_getPath "/abcdefghijklmnopqrstuvwx".toList = none := by
  decide

/-! ## Root listing (C6) -/

/-- Claim C6.  In every repository state the listing of `/` returns 0 and
emits `.`, `..`, then, in reference-list order, one entry for each listed
reference that looks up successfully and whose full name starts with
`refs/heads/`, named by the suffix after the last `/` of the full name; no
other reference yields an entry.  In the example repository, which lists two
branches, a tag, a remote branch and a branch whose lookup fails, the entries
are `.`, `..`, `main`, `dev`. -/
theorem readdir_root (slack : CStr) (repo : Repo) :
    gitfuse_readdir slack repo ['/'] =
      (0, some ['.'] :: some ['.', '.'] ::
        ((repo.git_reference_list.getD []).filter
            (fun n => repo.reference_loads n && g_pszBranchPath.isPrefixOf n)).map
          (fun n => some (lastSegment n))) ∧
    gitfuse_readdir [] exRepo ['/'] =
      (0, [some ".".toList, some "..".toList, some "main".toList, some "dev".toList]) := by
  refine ⟨?_, by decide⟩
  unfold gitfuse_readdir
  cases hl : repo.git_reference_list with
  | none => simp [filler]
  | some l => simp [foldl_readdirRefStep, filler]

/-! ## Attribute query on a file (C7) -/

/-- Claim C7 fails on the code for a branch whose name holds a `/`: the branch
`feature/x` exists, `a.txt` resolves inside its tree to a blob-typed entry whose
blob loads, and the attribute query on `/feature/x/a.txt` returns `-ENOENT`.
The parser cuts the path at the first `/`, so the reference looked up is
`refs/heads/feature`. -/
theorem getattr_slash_branch_not_found :
    exRepoSlash.git_reference_name_to_id (g_pszBranchPath ++ "feature/x".toList) = some 1 ∧
    exRepoSlash.odb 1 = some (git_object.commit 2) ∧
    exRepoSlash.odb 2
      = some (git_object.tree [⟨"a.txt".toList, git_otype.GIT_OBJ_BLOB, 3⟩]) ∧
    exRepoSlash.git_tree_entry_bypath [⟨"a.txt".toList, git_otype.GIT_OBJ_BLOB, 3⟩]
        "a.txt".toList
      = some ⟨"a.txt".toList, git_otype.GIT_OBJ_BLOB, 3⟩ ∧
    exRepoSlash.odb 3 = some (git_object.blob "hello".toList) ∧
    gitfuse_getRef [] "/feature/x/a.txt".toList = some "feature".toList ∧
    gitfuse_getPath "/feature/x/a.txt".toList = some "x/a.txt".toList ∧
    gitfuse_getattr [] exRepoSlash "/feature/x/a.txt".toList = (-ENOENT, stat.zero) := by
  decide

/-- Claim C7 as amended.  Let `B` be a non-empty name without `/` whose
reference `refs/heads/B` resolves to a commit with root tree `T`, and let the
remainder `P` (not the bare `/`, which designates `T` itself) resolve by path
inside `T` to a blob-typed entry whose blob `b` loads.  Then the attribute
query on `/B/P` returns 0 and reports a regular file of mode 0444, link count 1
and size the length of `b`. -/
theorem getattr_file (slack : CStr) (repo : Repo) (B P : CStr) (cid tid : Oid)
    (T : git_tree) (e : git_tree_entry) (b : git_blob)
    (hB : B ≠ []) (hs : '/' ∉ B) (hP : P ≠ ['/'])
    (h1 : repo.git_reference_name_to_id (g_pszBranchPath ++ B) = some cid)
    (h2 : repo.odb cid = some (git_object.commit tid))
    (h3 : repo.odb tid = some (git_object.tree T))
    (h4 : repo.git_tree_entry_bypath T P = some e)
    (h5 : e.type = git_otype.GIT_OBJ_BLOB)
    (h6 : repo.odb e.oid = some (git_object.blob b)) :
    gitfuse_getattr slack repo ('/' :: (B ++ '/' :: P))
      = (0, ⟨S_IFREG ||| 0o444, 1, b.length⟩) := by
  have hne : ¬ ('/' :: (B ++ '/' :: P) = ['/'] ∨ '/' :: (B ++ '/' :: P) = ['.'] ∨
      '/' :: (B ++ '/' :: P) = ['.', '.']) := by
    simp
  have htree := getRefTree_branch repo B cid tid T hB hs h1 h2 h3
  have hentry : gitfuse_getRefEntry repo (some B) (some P) = some e := by
    simp [gitfuse_getRefEntry, htree, h4]
  have hdir : gitfuse_isDirectory repo (some B) (some P) = false := by
    unfold gitfuse_isDirectory gitfuse_getRefPath
    have hp : ¬ ((some P : Option CStr) = none ∨ some P = some ['/']) := by simp [hP]
    rw [if_neg hp, hentry]
    simp [tree_lookup_of_blob repo e.oid b h6]
  have hsize : gitfuse_getFileSize repo e = b.length := by
    simp [gitfuse_getFileSize, git_tree_entry_id, git_blob_lookup, h6]
  simp [gitfuse_getattr, hne, getRef_seg_rest slack B P hs, getPath_seg_rest B P hs,
    hdir, hentry, h5, hsize, stat.zero]

/-- Witness of the amended C7: `/main/a.txt` with content `hello` is a regular
file of size 5. -/
theorem getattr_file_witness :
    gitfuse_getattr [] exRepo "/main/a.txt".toList = (0, ⟨S_IFREG ||| 0o444, 1, 5⟩) :=
  getattr_file [] exRepo "main".toList "a.txt".toList 1 2
    [⟨"a.txt".toList, git_otype.GIT_OBJ_BLOB, 3⟩]
    ⟨"a.txt".toList, git_otype.GIT_OBJ_BLOB, 3⟩ "hello".toList
    (by decide) (by decide) (by decide) (by decide) (by decide) (by decide) (by decide)
    (by decide) (by decide)

/-! ## Listing below the root (C8) -/

/-- The listing of a path other than `/`, by cases on what the parsed
reference segment and remainder resolve to: the tree of the reference (remainder
absent or `/`), the tree of the entry found by path, or nothing (reference
unresolved, no entry at the path, entry not a tree). -/
theorem readdir_below_root (slack : CStr) (repo : Repo) (path : CStr)
    (hpath : path ≠ ['/']) :
    (∀ T, gitfuse_getRefTree repo (gitfuse_getRef slack path) = some T →
      (gitfuse_getPath path = none ∨ gitfuse_getPath path = some ['/']) →
      gitfuse_readdir slack repo path
        = (0, some ['.'] :: some ['.', '.'] :: T.map (fun e => some e.name))) ∧
    (∀ T p e D, gitfuse_getRefTree repo (gitfuse_getRef slack path) = some T →
      gitfuse_getPath path = some p → p ≠ ['/'] →
      repo.git_tree_entry_bypath T p = some e → git_tree_lookup repo e.oid = some D →
      gitfuse_readdir slack repo path
        = (0, some ['.'] :: some ['.', '.'] :: D.map (fun e => some e.name))) ∧
    (gitfuse_getRefTree repo (gitfuse_getRef slack path) = none →
      gitfuse_readdir slack repo path = (-ENOENT, [some ['.'], some ['.', '.']])) ∧
    (∀ T p, gitfuse_getRefTree repo (gitfuse_getRef slack path) = some T →
      gitfuse_getPath path = some p → p ≠ ['/'] →
      repo.git_tree_entry_bypath T p = none →
      gitfuse_readdir slack repo path = (-ENOENT, [some ['.'], some ['.', '.']])) ∧
    (∀ T p e, gitfuse_getRefTree repo (gitfuse_getRef slack path) = some T →
      gitfuse_getPath path = some p → p ≠ ['/'] →
      repo.git_tree_entry_bypath T p = some e → git_tree_lookup repo e.oid = none →
      gitfuse_readdir slack repo path = (-ENOENT, [some ['.'], some ['.', '.']])) := by
  refine ⟨?_, ?_, ?_, ?_, ?_⟩
  · intro T hT hrem
    apply readdir_of_tree slack repo path T hpath
    simp [gitfuse_getRefPath, hrem, hT]
  · intro T p e D hT hrem hp hby hD
    apply readdir_of_tree slack repo path D hpath
    simp [gitfuse_getRefPath, hrem, hp, gitfuse_getRefEntry, hT, hby, hD]
  · intro hT
    apply readdir_of_no_tree slack repo path hpath
    unfold gitfuse_getRefPath
    split <;> simp [gitfuse_getRefEntry, hT]
  · intro T p hT hrem hp hby
    apply readdir_of_no_tree slack repo path hpath
    simp [gitfuse_getRefPath, hrem, hp, gitfuse_getRefEntry, hT, hby]
  · intro T p e hT hrem hp hby hD
    apply readdir_of_no_tree slack repo path hpath
    simp [gitfuse_getRefPath, hrem, hp, gitfuse_getRefEntry, hT, hby, hD]

/-- Claim C8, evaluated on the code: the branch `abcdefghijklmnopqrstuvwx`
exists and its reference resolves to a tree with the entry `a.txt`, the
remainder of `/abcdefghijklmnopqrstuvwx` is absent, and yet the listing of that
path returns `-ENOENT` with nothing after `.` and `..`: the segment
`gitfuse_getRef` reads back runs on into the byte after its buffer (here `!`),
so another reference is looked up.  With a NUL after the buffer the same
listing returns 0 with `a.txt`. -/
theorem readdir_existing_branch_not_found :
    exRepoLong.git_reference_name_to_id (g_pszBranchPath ++ "abcdefghijklmnopqrstuvwx".toList)
      = some 1 ∧
    gitfuse_getRefTree exRepoLong (some "abcdefghijklmnopqrstuvwx".toList)
      = some [⟨"a.txt".toList, git_otype.GIT_OBJ_BLOB, 3⟩] ∧
    gitfuse_getPath "/abcdefghijklmnopqrstuvwx".toList = none ∧
    gitfuse_getRef "!".toList "/abcdefghijklmnopqrstuvwx".toList
      = some "abcdefghijklmnopqrstuvwx!".toList ∧
    gitfuse_readdir "!".toList exRepoLong "/abcdefghijklmnopqrstuvwx".toList
      = (-ENOENT, [some ".".toList, some "..".toList]) ∧
    gitfuse_readdir [] exRepoLong "/abcdefghijklmnopqrstuvwx".toList
      = (0, [some ".".toList, some "..".toList, some "a.txt".toList]) := by
  decide

/-! ## Read of a blob that does not load (C9) -/

/-- Claim C9, evaluated on the code: `/main/a.txt` resolves to a blob-typed
entry, its blob does not load, and `gitfuse_read` returns 0 with no byte
copied, at offset 0 as at any other, instead of `-ENOENT`. -/
theorem read_missing_blob_returns_zero :
    gitfuse_getRefEntry exRepoNoBlob (gitfuse_getRef [] "/main/a.txt".toList)
        (gitfuse_getPath "/main/a.txt".toList)
      = some ⟨"a.txt".toList, git_otype.GIT_OBJ_BLOB, 3⟩ ∧
    git_blob_lookup exRepoNoBlob 3 = none ∧
    gitfuse_read [] exRepoNoBlob "/main/a.txt".toList 10 0 = (0, []) ∧
    gitfuse_read [] exRepoNoBlob "/main/a.txt".toList 1 5 = (0, []) ∧
    (gitfuse_read [] exRepoNoBlob "/main/a.txt".toList 10 0).1 ≠ -ENOENT := by
  decide

/-! ## Round trip of listed names (C10) -/

/-- Claim C10, evaluated on the code: for the 24-character branch name `B`
the listing name is `B` and the full name built from the segment `B` is
`refs/heads/B`, but the segment `gitfuse_getRef` reads back from `/B` runs on
into the byte after its buffer (here `!`), so the full name built from it is
not `refs/heads/B`. -/
theorem listed_name_round_trip_breaks :
    gitfuse_buildBranchDirName "refs/heads/abcdefghijklmnopqrstuvwx".toList
      = some "abcdefghijklmnopqrstuvwx".toList ∧
    pszFullRef "abcdefghijklmnopqrstuvwx".toList
      = "refs/heads/abcdefghijklmnopqrstuvwx".toList ∧
    (gitfuse_getRef "!".toList "/abcdefghijklmnopqrstuvwx".toList).map pszFullRef
      = some "refs/heads/abcdefghijklmnopqrstuvwx!".toList ∧
    (gitfuse_getRef "!".toList "/abcdefghijklmnopqrstuvwx".toList).map pszFullRef
      ≠ some "refs/heads/abcdefghijklmnopqrstuvwx".toList := by
  decide

end GitFuse
